import Mathlib

/-!
Verification of the mongodb-dashboard core against its specification.

The development shallowly embeds the relevant parts of the source:

* the paginated document-fetch route (`src/routes/api.js`, `GET /:db/:collection`),
* the BSON value codec (`src/utils/bson.js`, `serializeDocument` / `parseDocument`),
* the schema inferencer's per-field statistics and enum detection (`src/utils/schema.js`),
* the connection manager (`src/services/mongodb.js`, `MongoDBService`),
* the document update route (`src/routes/api.js`, `PUT /:db/:collection/:id`).

Machine integers stay exact: JavaScript numbers that the routes compare against
small bounds are modelled as `Int` (the float/exact distinction cannot change any
comparison below the bounds used here, see the comments at `parseIntJS`).
-/

namespace MongoDash

/-! ### Pagination model (src/routes/api.js, GET /:db/:collection)

A stored document is modelled by the parts of it the paginated route inspects:
its `_id` (a totally ordered value, modelled as `Int`; the route compares ids
with `$gt` and transports them through strings, which is faithful because
ObjectId strings compare like their byte values), plus a `createdAt` and one
string field `name` so that the spec's claimed behaviours (createdAt ordering,
free-text search) can be stated against the code's actual behaviour. -/

structure Doc where
  id : Int
  createdAt : Int
  name : String
  deriving Repr, DecidableEq

/-- The sort relation used by the route: `.sort(\x7b _id: 1 \x7d)`, ascending `_id`. -/
def docLe (a b : Doc) : Prop := a.id ≤ b.id

/-- Strict version of `docLe`; what ascending `_id` order means on distinct ids. -/
def docLt (a b : Doc) : Prop := a.id < b.id

instance : DecidableRel docLe := fun a b => inferInstanceAs (Decidable (a.id ≤ b.id))

instance : DecidableRel docLt := fun a b => inferInstanceAs (Decidable (a.id < b.id))

instance : IsTotal Doc docLe := ⟨fun a b => Int.le_total a.id b.id⟩

instance : IsTrans Doc docLe := ⟨fun _ _ _ h1 h2 => le_trans h1 h2⟩

instance : IsAntisymm Doc docLt :=
  ⟨fun _ _ h1 h2 => absurd (lt_trans h1 h2) (lt_irrefl _)⟩

/-- The store's `.find(query).sort(\x7b _id: 1 \x7d)`: stable ascending sort by `_id`. -/
def sortDocs (l : List Doc) : List Doc := l.insertionSort docLe

/-- The composite query the route builds: the request's filter (modelled as a
predicate on documents; filters constraining `_id` are out of scope because the
route overwrites any `_id` condition when a cursor is present) AND, when a
cursor is supplied, the continuation condition `_id $gt cursor`. -/
def matchesQ (p : Doc → Bool) (c : Option Int) (d : Doc) : Bool :=
  p d && (match c with
          | none => true
          | some v => decide (v < d.id))

/-- JavaScript whitespace accepted by `parseInt`. -/
def isJsSpace (ch : Char) : Bool :=
  ch = ' ' || ch = '\t' || ch = '\n' || ch = '\r'

/-- Value of a digit character in the given base, if valid. -/
def digitValIn (base : Nat) (ch : Char) : Option Nat :=
  let v :=
    if ch.isDigit then some (ch.toNat - 48)
    else if 'a' ≤ ch && ch ≤ 'z' then some (ch.toNat - 87)
    else if 'A' ≤ ch && ch ≤ 'Z' then some (ch.toNat - 55)
    else none
  match v with
  | some d => if d < base then some d else none
  | none => none

/-- Maximal leading run of valid digits, as digit values. -/
def leadingDigits (base : Nat) : List Char → List Nat
  | [] => []
  | ch :: rest =>
    match digitValIn base ch with
    | some d => d :: leadingDigits base rest
    | none => []

/-- JavaScript `parseInt(s)` (no explicit radix): skip whitespace, optional
sign, auto-detect a `0x` hex prefix, read the maximal digit run; `none` models
`NaN`.  The source feeds the result into `Math.min(_, 100)` after a `|| 50`
default, so the float imprecision of huge JS results cannot change anything:
both sides of every comparison used downstream are below 2^53 or saturate at
100. -/
def parseIntJS (s : String) : Option Int :=
  let cs := s.data.dropWhile isJsSpace
  let signAndRest : Int × List Char :=
    match cs with
    | '-' :: r => (-1, r)
    | '+' :: r => (1, r)
    | r => (1, r)
  let baseAndRest : Nat × List Char :=
    match signAndRest.2 with
    | '0' :: 'x' :: r => (16, r)
    | '0' :: 'X' :: r => (16, r)
    | r => (10, r)
  let ds := leadingDigits baseAndRest.1 baseAndRest.2
  if ds.isEmpty then none
  else some (signAndRest.1 * (ds.foldl (fun a v => a * (baseAndRest.1 : Int) + (v : Int)) 0))

/-- The destructuring default plus parse: `const \x7b limit = 50 \x7d = req.query`
followed by `parseInt(limit)`. -/
def limitParsed (lp : Option String) : Option Int :=
  match lp with
  | none => some 50
  | some s => parseIntJS s

/-- JavaScript `x || 50`: both `NaN` (`none`) and `0` are falsy. -/
def jsOr50 (parsed : Option Int) : Int :=
  match parsed with
  | none => 50
  | some 0 => 50
  | some w => w

/-- The route's page size: `Math.min(parseInt(limit) || 50, 100)`. -/
def pageLimitOf (lp : Option String) : Int :=
  min (jsOr50 (limitParsed lp)) 100

lemma jsOr50_ne_zero {v : Int} (hv : v ≠ 0) : jsOr50 (some v) = v := by
  match v, hv with
  | Int.ofNat (n + 1), _ => rfl
  | Int.negSucc n, _ => rfl
  | 0, hv => exact absurd rfl hv

/-- The JSON body of the route's paginated response. -/
structure ListResponse where
  documents : List Doc
  nextCursor : Option Int
  hasMore : Bool
  totalCount : Nat
  deriving Repr, DecidableEq

/-- The `docs` array the route gets back from the store: the composite query's
matches in ascending `_id` order, limited to `pageLimit + 1` rows (one extra
row to detect whether more pages exist). -/
def pageFetched (coll : List Doc) (p : Doc → Bool) (c : Option Int) (k : Int) : List Doc :=
  (sortDocs (coll.filter (matchesQ p c))).take (k + 1).toNat

/-- The route's `hasMore = docs.length > pageLimit`. -/
def pageHasMore (coll : List Doc) (p : Doc → Bool) (c : Option Int) (k : Int) : Bool :=
  decide (k < ((pageFetched coll p c k).length : Int))

/-- The route's `if (hasMore) docs.pop()`. -/
def pageDocuments (coll : List Doc) (p : Doc → Bool) (c : Option Int) (k : Int) : List Doc :=
  if pageHasMore coll p c k then (pageFetched coll p c k).dropLast
  else pageFetched coll p c k

/-- The paginated fetch: filter and cursor are composed into one query, the
store is asked for `pageLimit + 1` rows in ascending `_id` order, the extra row
(if present) is popped and signals `hasMore`, and the next cursor is the last
returned row's `_id`.  `totalCount` models `estimatedDocumentCount()` (exact
here; the estimate is a UX number, not a correctness requirement). -/
def fetchPage (coll : List Doc) (p : Doc → Bool) (c : Option Int) (k : Int) : ListResponse :=
  { documents := pageDocuments coll p c k
    nextCursor :=
      if pageHasMore coll p c k then
        (pageDocuments coll p c k).getLast?.map (fun d => d.id)
      else none
    hasMore := pageHasMore coll p c k
    totalCount := coll.length }

/-- The query parameters the route receives.  `search` appears here because the
client sends it, but the route's destructuring `const \x7b cursor, limit = 50,
filter \x7d = req.query` never reads it. -/
structure ListParams where
  limit : Option String
  cursor : Option Int
  filter : Doc → Bool
  search : Option String

/-- The route handler for `GET /:db/:collection`. -/
def handleList (coll : List Doc) (q : ListParams) : ListResponse :=
  fetchPage coll q.filter q.cursor (pageLimitOf q.limit)

/-- A client looping over the paginated fetch: start from no cursor, follow
`nextCursor` while `hasMore` holds, concatenating the returned pages.  `fuel`
bounds the recursion; the completeness theorem shows `coll.length + 1` rounds
always suffice. -/
def collectPages (coll : List Doc) (p : Doc → Bool) (k : Int) : Nat → Option Int → List Doc
  | 0, _ => []
  | fuel + 1, c =>
    if (fetchPage coll p c k).hasMore then
      match (fetchPage coll p c k).nextCursor with
      | some c2 => (fetchPage coll p c k).documents ++ collectPages coll p k fuel (some c2)
      | none => (fetchPage coll p c k).documents
    else (fetchPage coll p c k).documents

/-- Following the spec's words (not the source): the claimed page order,
primary key `createdAt` descending, secondary key `_id` descending. -/
def specClaimedPageOrder (a b : Doc) : Bool :=
  decide (b.createdAt < a.createdAt) ||
    (decide (b.createdAt = a.createdAt) && decide (b.id < a.id))

/-- Following the spec's words (not the source): the claimed cursor
continuation condition `createdAt < cursor.createdAt OR (createdAt ==
cursor.createdAt AND _id < cursor._id)`. -/
def specClaimedCursorCond (curCreatedAt curId : Int) (d : Doc) : Bool :=
  decide (d.createdAt < curCreatedAt) ||
    (decide (d.createdAt = curCreatedAt) && decide (d.id < curId))

/-- Following the spec's words (not the source): case-insensitive substring
check, the "contains, case-insensitive" condition of the claimed free-text
search. -/
def startsWithChars : List Char → List Char → Bool
  | _, [] => true
  | [], _ :: _ => false
  | h :: hs, n :: ns => h = n && startsWithChars hs ns

/-- Contiguous-sublist check over character lists. -/
def hasSubChars : List Char → List Char → Bool
  | [], pat => startsWithChars [] pat
  | h :: hs, pat => startsWithChars (h :: hs) pat || hasSubChars hs pat

/-- ASCII lower-casing of one character. -/
def charLower (ch : Char) : Char :=
  if 'A' ≤ ch && ch ≤ 'Z' then Char.ofNat (ch.toNat + 32) else ch

/-- Case-insensitive "contains" over strings. -/
def specContainsCI (hay needle : String) : Bool :=
  hasSubChars (hay.data.map charLower) (needle.data.map charLower)

example : pageLimitOf none = 50 := by decide

example : pageLimitOf (some "25") = 25 := by decide

example : pageLimitOf (some "0") = 50 := by decide

example : pageLimitOf (some "1000") = 100 := by decide

example : parseIntJS "  42abc" = some 42 := by decide

example : parseIntJS "0x10" = some 16 := by decide

example : parseIntJS "abc" = none := by decide

/-! ### Pagination lemmas -/

/-- The documents still ahead of a given cursor, in the order the store
returns them. -/
def remaining (coll : List Doc) (p : Doc → Bool) (c : Option Int) : List Doc :=
  sortDocs (coll.filter (matchesQ p c))

lemma sortDocs_perm (l : List Doc) : List.Perm (sortDocs l) l :=
  List.perm_insertionSort docLe l

lemma sortDocs_sorted (l : List Doc) : (sortDocs l).Pairwise docLe :=
  List.sorted_insertionSort docLe l

lemma pairwise_lt_of_le_of_ne {l : List Doc} (hle : l.Pairwise docLe)
    (hne : l.Pairwise fun a b => a.id ≠ b.id) : l.Pairwise docLt := by
  induction l with
  | nil => exact List.Pairwise.nil
  | cons a t ih =>
    rw [List.pairwise_cons] at hle hne ⊢
    exact ⟨fun b hb => lt_of_le_of_ne (hle.1 b hb) (hne.1 b hb), ih hle.2 hne.2⟩

lemma sortDocs_pairwise_ne {l : List Doc} (h : l.Pairwise fun a b => a.id ≠ b.id) :
    (sortDocs l).Pairwise fun a b => a.id ≠ b.id :=
  (List.Perm.pairwise_iff (fun hxy => hxy.symm) (sortDocs_perm l)).mpr h

lemma sortDocs_strict {l : List Doc} (h : l.Pairwise fun a b => a.id ≠ b.id) :
    (sortDocs l).Pairwise docLt :=
  pairwise_lt_of_le_of_ne (sortDocs_sorted l) (sortDocs_pairwise_ne h)

lemma sort_filter_comm (q : Doc → Bool) {l : List Doc}
    (hd : l.Pairwise fun a b => a.id ≠ b.id) :
    sortDocs (l.filter q) = (sortDocs l).filter q := by
  have h1 : List.Perm (sortDocs (l.filter q)) (l.filter q) := sortDocs_perm _
  have h2 : List.Perm ((sortDocs l).filter q) (l.filter q) :=
    List.Perm.filter q (sortDocs_perm l)
  have hs1 : List.Sorted docLt (sortDocs (l.filter q)) :=
    sortDocs_strict (List.Pairwise.sublist (List.filter_sublist l) hd)
  have hs2 : List.Sorted docLt ((sortDocs l).filter q) :=
    List.Pairwise.sublist (List.filter_sublist (sortDocs l)) (sortDocs_strict hd)
  exact List.eq_of_perm_of_sorted (h1.trans h2.symm) hs1 hs2

lemma remaining_length_le (coll : List Doc) (p : Doc → Bool) (c : Option Int) :
    (remaining coll p c).length ≤ coll.length := by
  unfold remaining
  rw [(sortDocs_perm (coll.filter (matchesQ p c))).length_eq]
  exact List.length_filter_le _ _

lemma remaining_pairwise_lt {coll : List Doc} (p : Doc → Bool) (c : Option Int)
    (hd : coll.Pairwise fun a b => a.id ≠ b.id) :
    (remaining coll p c).Pairwise docLt :=
  sortDocs_strict (List.Pairwise.sublist (List.filter_sublist coll) hd)

lemma mem_remaining_matches {coll : List Doc} {p : Doc → Bool} {c : Option Int} {d : Doc}
    (h : d ∈ remaining coll p c) : matchesQ p c d = true :=
  List.of_mem_filter ((sortDocs_perm _).mem_iff.mp h)

lemma pageFetched_eq (coll : List Doc) (p : Doc → Bool) (c : Option Int) (k : Int) :
    pageFetched coll p c k = (remaining coll p c).take (k + 1).toNat := rfl

lemma pageHasMore_eq (coll : List Doc) (p : Doc → Bool) (c : Option Int) {k : Int}
    (hk : 1 ≤ k) :
    pageHasMore coll p c k = decide (k.toNat < (remaining coll p c).length) := by
  rw [pageHasMore, pageFetched_eq, decide_eq_decide, List.length_take]
  omega

lemma pageDocuments_eq (coll : List Doc) (p : Doc → Bool) (c : Option Int) {k : Int}
    (hk : 1 ≤ k) :
    pageDocuments coll p c k = (remaining coll p c).take k.toNat := by
  rw [pageDocuments, pageHasMore_eq coll p c hk, pageFetched_eq]
  set S := remaining coll p c with hS
  by_cases hlen : k.toNat < S.length
  · have hflen : (S.take (k + 1).toNat).length = k.toNat + 1 := by
      rw [List.length_take]; omega
    rw [if_pos (by simpa using hlen), List.dropLast_eq_take, hflen, List.take_take]
    congr 1
    omega
  · rw [if_neg (by simpa using hlen),
      List.take_of_length_le (by omega), List.take_of_length_le (by omega)]

lemma getLast?_take_eq {S : List Doc} {n : Nat} (hn : 1 ≤ n) (hlen : n ≤ S.length) :
    (S.take n).getLast? = some (S.get ⟨n - 1, by omega⟩) := by
  rw [List.getLast?_eq_getElem?]
  have hl : (S.take n).length = n := by rw [List.length_take]; omega
  rw [hl, List.getElem?_eq_getElem (by rw [hl]; omega)]
  simp [List.getElem_take]

lemma pageDocuments_sublist (coll : List Doc) (p : Doc → Bool) (c : Option Int) (k : Int) :
    List.Sublist (pageDocuments coll p c k) (sortDocs (coll.filter (matchesQ p c))) := by
  rw [pageDocuments]
  by_cases h : pageHasMore coll p c k
  · rw [if_pos h]
    exact (List.dropLast_sublist _).trans (List.take_sublist _ _)
  · rw [if_neg h]
    exact List.take_sublist _ _

/-- Every document a page returns satisfies the composed query. -/
lemma mem_documents_matches {coll : List Doc} {p : Doc → Bool} {c : Option Int} {k : Int}
    {d : Doc} (hd : d ∈ (fetchPage coll p c k).documents) : matchesQ p c d = true :=
  List.of_mem_filter
    ((sortDocs_perm _).mem_iff.mp ((pageDocuments_sublist coll p c k).mem hd))

/-- Documents a page returns come out sorted ascending by `_id`. -/
lemma documents_pairwise_le (coll : List Doc) (p : Doc → Bool) (c : Option Int) (k : Int) :
    (fetchPage coll p c k).documents.Pairwise docLe :=
  List.Pairwise.sublist (pageDocuments_sublist coll p c k) (sortDocs_sorted _)

/-- Advancing the cursor past an id strictly above every smaller cursor value
refines the composite query pointwise. -/
lemma matchesQ_shift {p : Doc → Bool} {c : Option Int} {c2 : Int}
    (hvc : ∀ v, c = some v → v < c2) (d : Doc) :
    matchesQ p (some c2) d = (matchesQ p c d && decide (c2 < d.id)) := by
  cases c with
  | none => simp [matchesQ]
  | some v =>
    have hv : v < c2 := hvc v rfl
    unfold matchesQ
    cases hpd : p d
    · simp
    · simp only [Bool.true_and]
      cases h2 : decide (c2 < d.id)
      · simp
      · have hvd : v < d.id := by
          have := of_decide_eq_true h2
          omega
        simp [hvd]

/-- The documents remaining past the `n`-th row's id are exactly the rows after
position `n`: the heart of the cursor-continuation invariant. -/
lemma remaining_cursor_drop (coll : List Doc) (p : Doc → Bool)
    (hd : coll.Pairwise fun a b => a.id ≠ b.id) {c : Option Int} {n : Nat} {e : Doc}
    (hn : 1 ≤ n) (hlen : n ≤ (remaining coll p c).length)
    (he : (remaining coll p c).get ⟨n - 1, by omega⟩ = e) :
    remaining coll p (some e.id) = (remaining coll p c).drop n := by
  have hmem : e ∈ remaining coll p c := he ▸ List.get_mem _ _ _
  have hmatch : matchesQ p c e = true := mem_remaining_matches hmem
  have hvc : ∀ v, c = some v → v < e.id := by
    intro v hv
    subst hv
    simp only [matchesQ, Bool.and_eq_true, decide_eq_true_eq] at hmatch
    exact hmatch.2
  have hfilters : coll.filter (matchesQ p (some e.id)) =
      (coll.filter (matchesQ p c)).filter (fun d => decide (e.id < d.id)) := by
    rw [List.filter_filter]
    refine List.filter_congr ?_
    intro x _
    rw [matchesQ_shift hvc x, Bool.and_comm]
  have hstep : remaining coll p (some e.id) =
      (remaining coll p c).filter (fun d => decide (e.id < d.id)) := by
    unfold remaining
    rw [hfilters,
      sort_filter_comm _ (List.Pairwise.sublist (List.filter_sublist coll) hd)]
  rw [hstep]
  have hstrict : (remaining coll p c).Pairwise docLt := remaining_pairwise_lt p c hd
  set S := remaining coll p c with hS
  have hpw := List.pairwise_iff_getElem.mp hstrict
  have hidx : n - 1 < S.length := by omega
  have hgetE : S[n - 1] = e := by
    rw [← he, List.get_eq_getElem]
  conv_lhs => rw [← List.take_append_drop n S]
  rw [List.filter_append]
  have hnil : (S.take n).filter (fun d => decide (e.id < d.id)) = [] := by
    rw [List.filter_eq_nil_iff]
    intro a ha
    obtain ⟨i, hi, hia⟩ := List.mem_iff_getElem.mp ha
    have hilt : i < n := by
      have := hi
      rw [List.length_take] at this
      omega
    have hiS : i < S.length := by omega
    have haS : S[i] = a := by rw [← hia, List.getElem_take]
    have hle : a.id ≤ e.id := by
      rcases Nat.lt_or_ge i (n - 1) with hlt | hge
      · have hpwi := hpw i (n - 1) hiS hidx hlt
        rw [haS, hgetE] at hpwi
        exact le_of_lt hpwi
      · have hieq : i = n - 1 := by omega
        subst hieq
        rw [haS] at hgetE
        exact le_of_eq (congrArg Doc.id hgetE)
    simp only [decide_eq_true_eq]
    omega
  have hself : (S.drop n).filter (fun d => decide (e.id < d.id)) = S.drop n := by
    rw [List.filter_eq_self]
    intro a ha
    obtain ⟨j, hj, hja⟩ := List.mem_iff_getElem.mp ha
    have hjS : n + j < S.length := by
      have := hj
      rw [List.length_drop] at this
      omega
    have haS : S[n + j] = a := by rw [← hja, List.getElem_drop]
    have := hpw (n - 1) (n + j) hidx hjS (by omega)
    rw [haS, hgetE] at this
    simp only [decide_eq_true_eq]
    exact this
  rw [hnil, hself, List.nil_append]

/-- The client loop with enough fuel returns exactly the remaining documents. -/
lemma collect_go (coll : List Doc) (p : Doc → Bool)
    (hd : coll.Pairwise fun a b => a.id ≠ b.id) {k : Int} (hk : 1 ≤ k) :
    ∀ fuel (c : Option Int), (remaining coll p c).length < fuel →
      collectPages coll p k fuel c = remaining coll p c := by
  intro fuel
  induction fuel with
  | zero => intro c h; omega
  | succ fuel ih =>
    intro c hlen
    have hn1 : 1 ≤ k.toNat := by omega
    by_cases hmore : k.toNat < (remaining coll p c).length
    · have hmoreb : (fetchPage coll p c k).hasMore = true := by
        show pageHasMore coll p c k = true
        rw [pageHasMore_eq coll p c hk]
        exact decide_eq_true hmore
      have hdocs : (fetchPage coll p c k).documents =
          (remaining coll p c).take k.toNat := pageDocuments_eq coll p c hk
      have hlast : ((remaining coll p c).take k.toNat).getLast? =
          some ((remaining coll p c).get ⟨k.toNat - 1, by omega⟩) :=
        getLast?_take_eq hn1 (by omega)
      have hmoreb2 : pageHasMore coll p c k = true := hmoreb
      have hcur : (fetchPage coll p c k).nextCursor =
          some (((remaining coll p c).get ⟨k.toNat - 1, by omega⟩).id) := by
        show (if pageHasMore coll p c k then
            (pageDocuments coll p c k).getLast?.map (fun d => d.id) else none) = _
        rw [if_pos hmoreb2, pageDocuments_eq coll p c hk, hlast]
        rfl
      have hdrop := remaining_cursor_drop coll p hd (c := c) (n := k.toNat) hn1
        (by omega) rfl
      have hlen2 : (remaining coll p
          (some (((remaining coll p c).get ⟨k.toNat - 1, by omega⟩).id))).length < fuel := by
        rw [hdrop, List.length_drop]
        omega
      rw [collectPages, hmoreb, hcur]
      simp only [if_true]
      rw [hdocs, ih _ hlen2, hdrop]
      exact List.take_append_drop _ _
    · have hmoreb : (fetchPage coll p c k).hasMore = false := by
        show pageHasMore coll p c k = false
        rw [pageHasMore_eq coll p c hk]
        exact decide_eq_false hmore
      rw [collectPages, hmoreb]
      simp only [Bool.false_eq_true, if_false]
      rw [show (fetchPage coll p c k).documents = pageDocuments coll p c k from rfl,
        pageDocuments_eq coll p c hk, List.take_of_length_le (by omega)]

/-! ### Pagination claims -/

/-- Two concrete documents whose `_id` order agrees with their `createdAt`
order; used by several concrete evaluations. -/
def exDocA : Doc := { id := 1, createdAt := 1, name := "alpha" }

/-- Second concrete document, newer and with the larger id. -/
def exDocB : Doc := { id := 2, createdAt := 2, name := "beta" }

/-- C1 counterexample: the route returns pages in ascending `_id` order (here
`[exDocA, exDocB]`, which violates the claimed descending `(createdAt, _id)`
order between its two consecutive rows), and with a cursor it keeps only ids
strictly above the cursor (here nothing), excluding `exDocA` even though the
claimed continuation condition `createdAt < cursor.createdAt OR ...` admits
it. -/
theorem c1_counterexample :
    ((fetchPage [exDocA, exDocB] (fun _ => true) none 50).documents = [exDocA, exDocB]
      ∧ specClaimedPageOrder exDocA exDocB = false)
    ∧ ((fetchPage [exDocA, exDocB] (fun _ => true) (some 2) 50).documents = []
      ∧ specClaimedCursorCond 2 2 exDocA = true) := by
  refine ⟨⟨?_, by decide⟩, ⟨?_, by decide⟩⟩ <;> decide

/-- C1 (amended): every page the route returns is sorted ascending by `_id`,
every returned document satisfies the request filter, and when a cursor is
supplied every returned document satisfies the continuation condition
`_id > cursor`, exactly mirroring the ascending `_id` sort order. -/
theorem c1_sort_and_cursor_mirror (coll : List Doc) (p : Doc → Bool) (c : Option Int)
    (k : Int) :
    (fetchPage coll p c k).documents.Pairwise docLe
    ∧ (∀ d ∈ (fetchPage coll p c k).documents, p d = true)
    ∧ (∀ v, c = some v → ∀ d ∈ (fetchPage coll p c k).documents, v < d.id) := by
  refine ⟨documents_pairwise_le coll p c k, ?_, ?_⟩
  · intro d hd
    have h := mem_documents_matches hd
    simp only [matchesQ, Bool.and_eq_true] at h
    exact h.1
  · intro v hv d hd
    subst hv
    have h := mem_documents_matches hd
    simp only [matchesQ, Bool.and_eq_true, decide_eq_true_eq] at h
    exact h.2

/-- C1 witness: the amended statement evaluated at a concrete page fetch. -/
theorem c1_witness :
    (fetchPage [exDocA, exDocB] (fun _ => true) (some 0) 50).documents.Pairwise docLe
    ∧ (∀ d ∈ (fetchPage [exDocA, exDocB] (fun _ => true) (some 0) 50).documents,
        (fun (_ : Doc) => true) d = true)
    ∧ (∀ v, (some 0 : Option Int) = some v →
        ∀ d ∈ (fetchPage [exDocA, exDocB] (fun _ => true) (some 0) 50).documents,
          v < d.id) :=
  c1_sort_and_cursor_mirror [exDocA, exDocB] (fun _ => true) (some 0) 50

/-- C3 counterexample: the full pagination loop yields `[exDocA, exDocB]`
(ascending `_id`), whose two consecutive rows violate the claimed strictly
descending `(createdAt, _id)` order. -/
theorem c3_counterexample :
    collectPages [exDocA, exDocB] (fun _ => true) 50 3 none = [exDocA, exDocB]
    ∧ specClaimedPageOrder exDocA exDocB = false := by
  refine ⟨?_, by decide⟩
  decide

/-- C3 (amended): for a fixed filter and a collection with distinct ids and a
positive page size, following `nextCursor` until `hasMore` is false yields
exactly the matching documents — no duplicates, no omissions — in strictly
ascending `_id` order. -/
theorem c3_pagination_complete (coll : List Doc) (p : Doc → Bool) (lp : Option String)
    (hd : coll.Pairwise fun a b => a.id ≠ b.id) (hk : 1 ≤ pageLimitOf lp) :
    List.Perm (collectPages coll p (pageLimitOf lp) (coll.length + 1) none)
      (coll.filter p)
    ∧ (collectPages coll p (pageLimitOf lp) (coll.length + 1) none).Pairwise docLt := by
  have hlen : (remaining coll p none).length < coll.length + 1 :=
    Nat.lt_succ_of_le (remaining_length_le coll p none)
  have hco := collect_go coll p hd hk (coll.length + 1) none hlen
  rw [hco]
  constructor
  · have h2 : coll.filter (matchesQ p none) = coll.filter p := by
      refine List.filter_congr ?_
      intro x _
      simp [matchesQ]
    unfold remaining
    rw [h2]
    exact sortDocs_perm _
  · exact remaining_pairwise_lt p none hd

/-- C3 witness: the amended completeness statement at a concrete collection. -/
theorem c3_witness :
    List.Perm
      (collectPages [exDocA, exDocB] (fun _ => true) (pageLimitOf (some "1"))
        ([exDocA, exDocB].length + 1) none)
      ([exDocA, exDocB].filter (fun _ => true))
    ∧ (collectPages [exDocA, exDocB] (fun _ => true) (pageLimitOf (some "1"))
        ([exDocA, exDocB].length + 1) none).Pairwise docLt :=
  c3_pagination_complete [exDocA, exDocB] (fun _ => true) (some "1") (by decide) (by decide)

/-- C5 counterexample: the route returns `exDocA` although its only string
field does not contain the supplied search term, so the composed query cannot
contain the claimed case-insensitive-contains disjunction. -/
theorem c5_counterexample :
    (handleList [exDocA] (ListParams.mk none none (fun _ => true) (some "zzz"))).documents = [exDocA]
    ∧ specContainsCI exDocA.name "zzz" = false := by
  refine ⟨?_, by decide⟩
  decide

/-- C5 (amended): the route never reads the `search` query parameter — its
response is independent of the search term — and the composed query consists of
the filter and cursor conditions only. -/
theorem c5_search_ignored (coll : List Doc) (q : ListParams) (s1 s2 : Option String) :
    handleList coll { q with search := s1 } = handleList coll { q with search := s2 }
    ∧ ∀ d ∈ (handleList coll q).documents, matchesQ q.filter q.cursor d = true := by
  constructor
  · rfl
  · intro d hd
    exact mem_documents_matches hd

/-- C5 witness: the amended statement at a concrete request. -/
theorem c5_witness :
    handleList [exDocA]
        (ListParams.mk none none (fun _ => true) (some "zzz"))
      = handleList [exDocA]
        (ListParams.mk none none (fun _ => true) none)
    ∧ ∀ d ∈ (handleList [exDocA]
        (ListParams.mk none none (fun _ => true) none)).documents,
        matchesQ (fun _ => true) none d = true := by
  have h := c5_search_ignored [exDocA]
    (ListParams.mk none none (fun _ => true) none)
    (some "zzz") none
  exact h

/-- C9 counterexample: with `limit=0` the parsed limit is `0`, so the claimed
bound `min(parsed limit, 100) = 0` would force an empty page, yet the route
(whose `parseInt(limit) || 50` treats `0` as falsy) returns a document. -/
theorem c9_counterexample :
    (handleList [exDocA] (ListParams.mk (some "0") none (fun _ => true) none)).documents.length = 1
    ∧ parseIntJS "0" = some 0
    ∧ ¬ ((1 : Int) ≤ min 0 100) := by
  refine ⟨?_, by decide, by decide⟩
  decide

/-- C9 (amended): whenever the effective page size is positive (the parsed
limit is positive, or the limit is absent, unparseable, or parses to zero), the
route returns at most `pageLimit` documents where `pageLimit` is `min(parsed
limit, 100)` for positive parses and `50` otherwise, and `hasMore` is set
exactly when strictly more matching rows exist than the page size — the extra
fetched row. -/
theorem c9_page_size (coll : List Doc) (p : Doc → Bool) (c : Option Int)
    (lp : Option String) (hk : 0 < pageLimitOf lp) :
    (((fetchPage coll p c (pageLimitOf lp)).documents.length : Int) ≤ pageLimitOf lp)
    ∧ ((fetchPage coll p c (pageLimitOf lp)).hasMore = true ↔
        pageLimitOf lp < ((coll.filter (matchesQ p c)).length : Int))
    ∧ pageLimitOf none = 50
    ∧ (∀ s, parseIntJS s = none → pageLimitOf (some s) = 50)
    ∧ (∀ s, parseIntJS s = some 0 → pageLimitOf (some s) = 50)
    ∧ (∀ s v, parseIntJS s = some v → 0 < v → pageLimitOf (some s) = min v 100) := by
  have hk1 : 1 ≤ pageLimitOf lp := hk
  refine ⟨?_, ?_, by decide, ?_, ?_, ?_⟩
  · rw [show (fetchPage coll p c (pageLimitOf lp)).documents
        = pageDocuments coll p c (pageLimitOf lp) from rfl,
      pageDocuments_eq coll p c hk1, List.length_take]
    have h1 : min (pageLimitOf lp).toNat (remaining coll p c).length
        ≤ (pageLimitOf lp).toNat := min_le_left _ _
    omega
  · rw [show (fetchPage coll p c (pageLimitOf lp)).hasMore
        = pageHasMore coll p c (pageLimitOf lp) from rfl,
      pageHasMore_eq coll p c hk1]
    have hrl : (remaining coll p c).length = (coll.filter (matchesQ p c)).length :=
      (sortDocs_perm _).length_eq
    constructor
    · intro h
      have h2 := of_decide_eq_true h
      omega
    · intro h
      apply decide_eq_true
      omega
  · intro s hs
    rw [show pageLimitOf (some s) = min (jsOr50 (parseIntJS s)) 100 from rfl, hs]
    decide
  · intro s hs
    rw [show pageLimitOf (some s) = min (jsOr50 (parseIntJS s)) 100 from rfl, hs]
    decide
  · intro s v hs hv
    rw [show pageLimitOf (some s) = min (jsOr50 (parseIntJS s)) 100 from rfl, hs,
      jsOr50_ne_zero (by omega)]

/-- C9 witness: the amended statement at a concrete request with `limit=7`. -/
theorem c9_witness :
    (((fetchPage [exDocA, exDocB] (fun _ => true) none
        (pageLimitOf (some "7"))).documents.length : Int) ≤ pageLimitOf (some "7"))
    ∧ ((fetchPage [exDocA, exDocB] (fun _ => true) none (pageLimitOf (some "7"))).hasMore
          = true ↔
        pageLimitOf (some "7") <
          (([exDocA, exDocB].filter (matchesQ (fun _ => true) none)).length : Int))
    ∧ pageLimitOf none = 50
    ∧ (∀ s, parseIntJS s = none → pageLimitOf (some s) = 50)
    ∧ (∀ s, parseIntJS s = some 0 → pageLimitOf (some s) = 50)
    ∧ (∀ s v, parseIntJS s = some v → 0 < v → pageLimitOf (some s) = min v 100) :=
  c9_page_size [exDocA, exDocB] (fun _ => true) none (some "7") (by decide)

/-! ### Value codec (src/utils/bson.js)

Native BSON values as the serializer distinguishes them.  String-carried
extended types are represented by their canonical driver string form: an
ObjectId by its 24-char lowercase-hex `toString()`, a `Date` by its
`toISOString()`, a `Decimal128` and a `Long` by their `toString()` — in this
program those values are only ever produced from and consumed into exactly
those strings, so the representation is bijective on the values that occur.
Numbers are modelled as `Int` (no claim depends on float behaviour). -/

inductive BsonValue where
  | bNull
  | bBool (b : Bool)
  | bNum (n : Int)
  | bStr (s : String)
  | bObjectId (hex : String)
  | bDate (iso : String)
  | bBinary (base64 : String) (subType : Nat)
  | bDecimal (s : String)
  | bLong (s : String)
  | bTimestamp (t : Int) (i : Int)
  | bArr (vs : List BsonValue)
  | bDoc (fields : List (String × BsonValue))
  deriving Repr

/-- Transport JSON values: primitives, arrays, and objects as ordered key/value
lists (JavaScript objects cannot repeat keys; well-formedness enforces that). -/
inductive TValue where
  | tNull
  | tBool (b : Bool)
  | tNum (n : Int)
  | tStr (s : String)
  | tArr (vs : List TValue)
  | tObj (fields : List (String × TValue))
  deriving Repr

mutual

/-- `serializeDocument`: recursively maps each recognized native extended type
to its tagged transport form and walks arrays and plain documents. -/
def serializeValue : BsonValue → TValue
  | .bNull => .tNull
  | .bBool b => .tBool b
  | .bNum n => .tNum n
  | .bStr s => .tStr s
  | .bObjectId s => .tObj [("$oid", .tStr s)]
  | .bDate iso => .tObj [("$date", .tStr iso)]
  | .bBinary data st =>
    .tObj [("$binary", .tStr data), ("$type", .tStr (String.mk (Nat.toDigits 16 st)))]
  | .bDecimal s => .tObj [("$numberDecimal", .tStr s)]
  | .bLong s => .tObj [("$numberLong", .tStr s)]
  | .bTimestamp t i => .tObj [("$timestamp", .tObj [("t", .tNum t), ("i", .tNum i)])]
  | .bArr vs => .tArr (serializeList vs)
  | .bDoc fs => .tObj (serializeFields fs)

/-- `doc.map(serializeDocument)` on arrays. -/
def serializeList : List BsonValue → List TValue
  | [] => []
  | v :: vs => serializeValue v :: serializeList vs

/-- The `for (const key in doc)` walk of a plain document. -/
def serializeFields : List (String × BsonValue) → List (String × TValue)
  | [] => []
  | (k, v) :: fs => (k, serializeValue v) :: serializeFields fs

end

/-- JavaScript truthiness of a transport value (`if (doc.$oid)` etc.); `NaN`
is not modelled (no `NaN` is ever produced here). -/
def truthy : TValue → Bool
  | .tNull => false
  | .tBool b => b
  | .tNum n => n != 0
  | .tStr s => s != ""
  | .tArr _ => true
  | .tObj _ => true

/-- Truthiness of a property access that may miss. -/
def truthyOpt (o : Option TValue) : Bool :=
  match o with
  | some v => truthy v
  | none => false

/-- Characters allowed in a canonical (lowercase) hex ObjectId string. -/
def isLowerHexChar (ch : Char) : Bool :=
  ch.isDigit || ('a' ≤ ch && ch ≤ 'f')

/-- A canonical `ObjectId.toString()` image: 24 lowercase hex characters.  The
driver accepts a superset (mixed case) and normalizes; the theorems only
quantify over canonical strings, on which the constructor is the identity. -/
def validOidHex (s : String) : Bool :=
  s.length == 24 && s.data.all isLowerHexChar

/-- Numeric value of a decimal digit character. -/
def digitVal10 (ch : Char) : Nat := ch.toNat - 48

/-- Gregorian leap-year rule (as used by JavaScript dates). -/
def isLeapYear (y : Nat) : Bool :=
  (y % 4 == 0 && y % 100 != 0) || y % 400 == 0

/-- Days in a month, for date-validity checking. -/
def daysInMonth (y m : Nat) : Nat :=
  if m == 2 then (if isLeapYear y then 29 else 28)
  else if m == 4 || m == 6 || m == 9 || m == 11 then 30
  else 31

/-- A canonical `Date.toISOString()` image: `YYYY-MM-DDTHH:MM:SS.mmmZ` with a
calendar-valid date, so that `new Date(s).toISOString() = s` holds exactly. -/
def isCanonicalIso (s : String) : Bool :=
  match s.data with
  | [y1, y2, y3, y4, sep1, m1, m2, sep2, d1, d2, tt, h1, h2, c1, mi1, mi2, c2,
     s1, s2, dot, ms1, ms2, ms3, z] =>
    ([y1, y2, y3, y4, m1, m2, d1, d2, h1, h2, mi1, mi2, s1, s2, ms1, ms2,
      ms3].all Char.isDigit)
    && sep1 == '-' && sep2 == '-' && tt == 'T' && c1 == ':' && c2 == ':'
    && dot == '.' && z == 'Z'
    && (let y := 1000 * digitVal10 y1 + 100 * digitVal10 y2 + 10 * digitVal10 y3
          + digitVal10 y4
        let mo := 10 * digitVal10 m1 + digitVal10 m2
        let da := 10 * digitVal10 d1 + digitVal10 d2
        let hh := 10 * digitVal10 h1 + digitVal10 h2
        let mi := 10 * digitVal10 mi1 + digitVal10 mi2
        let ss := 10 * digitVal10 s1 + digitVal10 s2
        (1 ≤ mo && mo ≤ 12) && (1 ≤ da && da ≤ daysInMonth y mo)
          && hh ≤ 23 && mi ≤ 59 && ss ≤ 59)
  | _ => false

/-- Digit run with no leading zero (the shape of nonzero integer parts in
canonical numeric strings). -/
def nonzeroDigitRun (l : List Char) : Bool :=
  match l with
  | [] => false
  | ch :: rest => ch.isDigit && ch != '0' && rest.all Char.isDigit

/-- Integer part of a canonical decimal string: `0` or a nonzero digit run. -/
def decIntPartOk (l : List Char) : Bool :=
  l == ['0'] || nonzeroDigitRun l

/-- A canonical `Decimal128.toString()` image (the non-exponential forms):
optional minus sign, canonical integer part, optional fraction digits.
`Decimal128.fromString` maps such strings back to a value printing the same
way. -/
def isCanonicalDec (s : String) : Bool :=
  let body := match s.data with
    | '-' :: rest => rest
    | rest => rest
  match body.span (fun ch => ch != '.') with
  | (intPart, []) => decIntPartOk intPart
  | (intPart, _dot :: frac) =>
    decIntPartOk intPart && !frac.isEmpty && frac.all Char.isDigit

/-- Lexicographic comparison of character lists. -/
def charsLe : List Char → List Char → Bool
  | [], _ => true
  | _ :: _, [] => false
  | a :: as, b :: bs => if a = b then charsLe as bs else decide (a < b)

/-- Magnitude comparison of two digit strings (shorter, or lexicographically
not above, at equal length). -/
def magLe (l bound : List Char) : Bool :=
  l.length < bound.length || (l.length == bound.length && charsLe l bound)

/-- A canonical `Long.toString()` image: a 64-bit signed decimal numeral with
no leading zeros.  `Long.fromString` maps such strings back to a value printing
the same way (out-of-range numerals would wrap). -/
def isCanonicalLong (s : String) : Bool :=
  s == "0"
    || (match s.data with
        | '-' :: rest => nonzeroDigitRun rest && magLe rest "9223372036854775808".data
        | rest => nonzeroDigitRun rest && magLe rest "9223372036854775807".data)

mutual

/-- `parseDocument`: recognizes the four tag keys — by truthiness of the
property, mirroring `if (doc.$oid) ...` — and otherwise walks objects and
arrays.  The driver-constructor validation (`new ObjectId`, `Decimal128
.fromString`, ...) is modelled by the canonical-form checks; the driver accepts
a superset of these strings and normalizes them, and the round-trip theorems
only quantify over the canonical forms, on which the constructors are
value-faithful.  A failed validation models the constructor throwing. -/
def parseValue : TValue → Except String BsonValue
  | .tNull => .ok .bNull
  | .tBool b => .ok (.bBool b)
  | .tNum n => .ok (.bNum n)
  | .tStr s => .ok (.bStr s)
  | .tArr vs =>
    match parseList vs with
    | .ok bs => .ok (.bArr bs)
    | .error e => .error e
  | .tObj fs =>
    if truthyOpt (fs.lookup "$oid") then
      match fs.lookup "$oid" with
      | some (.tStr s) =>
        if validOidHex s then .ok (.bObjectId s) else .error "invalid ObjectId"
      | _ => .error "invalid ObjectId"
    else if truthyOpt (fs.lookup "$date") then
      match fs.lookup "$date" with
      | some (.tStr s) =>
        if isCanonicalIso s then .ok (.bDate s) else .error "invalid Date"
      | _ => .error "invalid Date"
    else if truthyOpt (fs.lookup "$numberDecimal") then
      match fs.lookup "$numberDecimal" with
      | some (.tStr s) =>
        if isCanonicalDec s then .ok (.bDecimal s) else .error "invalid Decimal128"
      | _ => .error "invalid Decimal128"
    else if truthyOpt (fs.lookup "$numberLong") then
      match fs.lookup "$numberLong" with
      | some (.tStr s) =>
        if isCanonicalLong s then .ok (.bLong s) else .error "invalid Long"
      | _ => .error "invalid Long"
    else
      match parseFields fs with
      | .ok bs => .ok (.bDoc bs)
      | .error e => .error e

/-- `doc.map(parseDocument)` on arrays; the first failure propagates. -/
def parseList : List TValue → Except String (List BsonValue)
  | [] => .ok []
  | v :: vs =>
    match parseValue v, parseList vs with
    | .ok b, .ok bs => .ok (b :: bs)
    | .error e, _ => .error e
    | .ok _, .error e => .error e

/-- The `for (const key in doc)` walk of a plain object. -/
def parseFields : List (String × TValue) → Except String (List (String × BsonValue))
  | [] => .ok []
  | (k, v) :: fs =>
    match parseValue v, parseFields fs with
    | .ok b, .ok bs => .ok ((k, b) :: bs)
    | .error e, _ => .error e
    | .ok _, .error e => .error e

end

example : serializeValue (.bObjectId "507f1f77bcf86cd799439011")
    = .tObj [("$oid", .tStr "507f1f77bcf86cd799439011")] := rfl

example : parseValue (.tObj [("$oid", .tStr "507f1f77bcf86cd799439011")])
    = .ok (.bObjectId "507f1f77bcf86cd799439011") := rfl

example : isCanonicalIso "2020-02-29T12:34:56.789Z" = true := by decide

example : isCanonicalIso "2021-02-29T12:34:56.789Z" = false := by decide

example : isCanonicalDec "-10.50" = true := by decide

example : isCanonicalDec "01" = false := by decide

example : isCanonicalLong "-9223372036854775808" = true := by decide

example : isCanonicalLong "9223372036854775808" = false := by decide

/-! ### Well-formedness for the round-trip law -/

/-- The four tag keys `parseDocument` recognizes. -/
def isTagKey (k : String) : Bool :=
  k == "$oid" || k == "$date" || k == "$numberDecimal" || k == "$numberLong"

/-- Keys of a native document that round-trips: distinct (JavaScript objects
cannot repeat keys) and none of them a recognized tag key (a document field
named like a tag would be re-parsed as an extended value). -/
def docKeysOk : List String → Bool
  | [] => true
  | k :: rest => !isTagKey k && !(rest.contains k) && docKeysOk rest

mutual

/-- Native values on which `parse ∘ serialize` is the identity: everything the
serializer handles except `Binary` and `Timestamp` — whose tagged forms the
parser does not recognize (see the C2 counterexample) — with canonical string
forms and tag-free distinct document keys. -/
def wfB : BsonValue → Bool
  | .bNull => true
  | .bBool _ => true
  | .bNum _ => true
  | .bStr _ => true
  | .bObjectId s => validOidHex s
  | .bDate s => isCanonicalIso s
  | .bBinary _ _ => false
  | .bDecimal s => isCanonicalDec s
  | .bLong s => isCanonicalLong s
  | .bTimestamp _ _ => false
  | .bArr vs => wfBList vs
  | .bDoc fs => docKeysOk (fs.map Prod.fst) && wfBFields fs

/-- All members well-formed. -/
def wfBList : List BsonValue → Bool
  | [] => true
  | v :: vs => wfB v && wfBList vs

/-- All field values well-formed. -/
def wfBFields : List (String × BsonValue) → Bool
  | [] => true
  | (_, v) :: fs => wfB v && wfBFields fs

end

/-- Distinct keys, as a computable check. -/
def keysDistinct : List String → Bool
  | [] => true
  | k :: rest => !(rest.contains k) && keysDistinct rest

/-- A transport object that the parser walks generically: distinct keys and no
truthy tag property (so none of the four tag branches fires). -/
def genKeysOk (fs : List (String × TValue)) : Bool :=
  keysDistinct (fs.map Prod.fst)
    && !truthyOpt (fs.lookup "$oid")
    && !truthyOpt (fs.lookup "$date")
    && !truthyOpt (fs.lookup "$numberDecimal")
    && !truthyOpt (fs.lookup "$numberLong")

mutual

/-- Well-formed tagged transport values: primitives, arrays of well-formed
values, the four single-key tagged forms with canonical payloads, and generic
objects (distinct keys, no truthy tag key) of well-formed values. -/
def wfT : TValue → Bool
  | .tNull => true
  | .tBool _ => true
  | .tNum _ => true
  | .tStr _ => true
  | .tArr vs => wfTList vs
  | .tObj fs =>
    (match fs with
     | [("$oid", .tStr s)] => validOidHex s
     | [("$date", .tStr s)] => isCanonicalIso s
     | [("$numberDecimal", .tStr s)] => isCanonicalDec s
     | [("$numberLong", .tStr s)] => isCanonicalLong s
     | _ => false)
    || (genKeysOk fs && wfTFields fs)

/-- All members well-formed. -/
def wfTList : List TValue → Bool
  | [] => true
  | v :: vs => wfT v && wfTList vs

/-- All field values well-formed. -/
def wfTFields : List (String × TValue) → Bool
  | [] => true
  | (_, v) :: fs => wfT v && wfTFields fs

end

/-! ### Round-trip lemmas -/

lemma validOidHex_ne_empty {s : String} (h : validOidHex s = true) : s ≠ "" := by
  intro he
  rw [he] at h
  exact absurd h (by decide)

lemma isCanonicalIso_ne_empty {s : String} (h : isCanonicalIso s = true) : s ≠ "" := by
  intro he
  rw [he] at h
  exact absurd h (by decide)

lemma isCanonicalDec_ne_empty {s : String} (h : isCanonicalDec s = true) : s ≠ "" := by
  intro he
  rw [he] at h
  exact absurd h (by decide)

lemma isCanonicalLong_ne_empty {s : String} (h : isCanonicalLong s = true) : s ≠ "" := by
  intro he
  rw [he] at h
  exact absurd h (by decide)

lemma lookup_eq_none_of_not_mem {β : Type} {fs : List (String × β)} {k : String}
    (h : k ∉ fs.map Prod.fst) : fs.lookup k = none := by
  induction fs with
  | nil => rfl
  | cons kv rest ih =>
    obtain ⟨k2, v⟩ := kv
    simp only [List.map_cons, List.mem_cons] at h
    push_neg at h
    simp only [List.lookup]
    rw [show (k == k2) = false from beq_eq_false_iff_ne.mpr h.1]
    exact ih h.2

lemma serializeFields_keys (fs : List (String × BsonValue)) :
    (serializeFields fs).map Prod.fst = fs.map Prod.fst := by
  induction fs with
  | nil => rfl
  | cons kv rest ih =>
    obtain ⟨k, v⟩ := kv
    simp only [serializeFields, List.map_cons, ih]

lemma docKeysOk_no_tag {ks : List String} (h : docKeysOk ks = true) {k : String}
    (hk : isTagKey k = true) : k ∉ ks := by
  induction ks with
  | nil => simp
  | cons k2 rest ih =>
    simp only [docKeysOk, Bool.and_eq_true, Bool.not_eq_true'] at h
    obtain ⟨⟨h1, _⟩, h3⟩ := h
    simp only [List.mem_cons]
    push_neg
    refine ⟨?_, ih h3⟩
    intro he
    rw [← he] at h1
    rw [h1] at hk
    exact absurd hk (by decide)

mutual

/-- First half of the round-trip law, on well-formed native values:
`parse(serialize(x)) = x`. -/
theorem parse_serialize (v : BsonValue) (h : wfB v = true) :
    parseValue (serializeValue v) = .ok v := by
  match v with
  | .bNull => rfl
  | .bBool b => rfl
  | .bNum n => rfl
  | .bStr s => rfl
  | .bBinary data st => simp [wfB] at h
  | .bTimestamp t i => simp [wfB] at h
  | .bObjectId s =>
    replace h : validOidHex s = true := h
    have hne : s ≠ "" := validOidHex_ne_empty h
    simp [serializeValue, parseValue, List.lookup, truthyOpt, truthy, hne, h]
  | .bDate s =>
    replace h : isCanonicalIso s = true := h
    have hne : s ≠ "" := isCanonicalIso_ne_empty h
    simp [serializeValue, parseValue, List.lookup, truthyOpt, truthy, hne, h]
  | .bDecimal s =>
    replace h : isCanonicalDec s = true := h
    have hne : s ≠ "" := isCanonicalDec_ne_empty h
    simp [serializeValue, parseValue, List.lookup, truthyOpt, truthy, hne, h]
  | .bLong s =>
    replace h : isCanonicalLong s = true := h
    have hne : s ≠ "" := isCanonicalLong_ne_empty h
    simp [serializeValue, parseValue, List.lookup, truthyOpt, truthy, hne, h]
  | .bArr vs =>
    have hl := parse_serialize_list vs h
    simp [serializeValue, parseValue, hl]
  | .bDoc fs =>
    simp only [wfB, Bool.and_eq_true] at h
    obtain ⟨hkeys, hfields⟩ := h
    have hnone : ∀ k : String, isTagKey k = true →
        (serializeFields fs).lookup k = none := by
      intro k hk
      apply lookup_eq_none_of_not_mem
      rw [serializeFields_keys]
      exact docKeysOk_no_tag hkeys hk
    have hf := parse_serialize_fields fs hfields
    simp [serializeValue, parseValue, hnone "$oid" (by decide),
      hnone "$date" (by decide), hnone "$numberDecimal" (by decide),
      hnone "$numberLong" (by decide), truthyOpt, hf]

/-- Round trip over array members. -/
theorem parse_serialize_list (vs : List BsonValue) (h : wfBList vs = true) :
    parseList (serializeList vs) = .ok vs := by
  match vs with
  | [] => rfl
  | v :: rest =>
    simp only [wfBList, Bool.and_eq_true] at h
    simp [serializeList, parseList, parse_serialize v h.1,
      parse_serialize_list rest h.2]

/-- Round trip over document fields. -/
theorem parse_serialize_fields (fs : List (String × BsonValue))
    (h : wfBFields fs = true) : parseFields (serializeFields fs) = .ok fs := by
  match fs with
  | [] => rfl
  | (k, v) :: rest =>
    simp only [wfBFields, Bool.and_eq_true] at h
    simp [serializeFields, parseFields, parse_serialize v h.1,
      parse_serialize_fields rest h.2]

end

mutual

/-- Second half of the round-trip law, on well-formed tagged transport values:
the parse succeeds and `serialize(parse(y)) = y`. -/
theorem serialize_parse (y : TValue) (h : wfT y = true) :
    (parseValue y).map serializeValue = .ok y := by
  match y with
  | .tNull => rfl
  | .tBool b => rfl
  | .tNum n => rfl
  | .tStr s => rfl
  | .tArr vs =>
    have hl := serialize_parse_list vs h
    cases hpl : parseList vs with
    | ok bs =>
      rw [hpl] at hl
      simp only [Except.map, Except.ok.injEq] at hl
      simp [parseValue, hpl, Except.map, serializeValue, hl]
    | error e =>
      rw [hpl] at hl
      simp [Except.map] at hl
  | .tObj fs =>
    simp only [wfT] at h
    rw [Bool.or_eq_true] at h
    rcases h with htag | hgen
    · split at htag
      case _ s =>
        have hne : s ≠ "" := validOidHex_ne_empty htag
        simp [parseValue, List.lookup, truthyOpt, truthy, hne, htag, Except.map,
          serializeValue]
      case _ s =>
        have hne : s ≠ "" := isCanonicalIso_ne_empty htag
        simp [parseValue, List.lookup, truthyOpt, truthy, hne, htag, Except.map,
          serializeValue]
      case _ s =>
        have hne : s ≠ "" := isCanonicalDec_ne_empty htag
        simp [parseValue, List.lookup, truthyOpt, truthy, hne, htag, Except.map,
          serializeValue]
      case _ s =>
        have hne : s ≠ "" := isCanonicalLong_ne_empty htag
        simp [parseValue, List.lookup, truthyOpt, truthy, hne, htag, Except.map,
          serializeValue]
      case _ =>
        simp at htag
    · rw [Bool.and_eq_true] at hgen
      obtain ⟨hgk, hfields⟩ := hgen
      simp only [genKeysOk, Bool.and_eq_true, Bool.not_eq_true'] at hgk
      obtain ⟨⟨⟨⟨-, h1⟩, h2⟩, h3⟩, h4⟩ := hgk
      have hf := serialize_parse_fields fs hfields
      cases hpf : parseFields fs with
      | ok bs =>
        rw [hpf] at hf
        simp only [Except.map, Except.ok.injEq] at hf
        simp [parseValue, h1, h2, h3, h4, hpf, Except.map, serializeValue, hf]
      | error e =>
        rw [hpf] at hf
        simp [Except.map] at hf

/-- Round trip over transport arrays. -/
theorem serialize_parse_list (vs : List TValue) (h : wfTList vs = true) :
    (parseList vs).map serializeList = .ok vs := by
  match vs with
  | [] => rfl
  | v :: rest =>
    simp only [wfTList, Bool.and_eq_true] at h
    have h1 := serialize_parse v h.1
    have h2 := serialize_parse_list rest h.2
    cases hpv : parseValue v with
    | error e =>
      rw [hpv] at h1
      simp [Except.map] at h1
    | ok b =>
      rw [hpv] at h1
      simp only [Except.map, Except.ok.injEq] at h1
      cases hpr : parseList rest with
      | error e =>
        rw [hpr] at h2
        simp [Except.map] at h2
      | ok bs =>
        rw [hpr] at h2
        simp only [Except.map, Except.ok.injEq] at h2
        simp [parseList, hpv, hpr, Except.map, serializeList, h1, h2]

/-- Round trip over transport object fields. -/
theorem serialize_parse_fields (fs : List (String × TValue)) (h : wfTFields fs = true) :
    (parseFields fs).map serializeFields = .ok fs := by
  match fs with
  | [] => rfl
  | (k, v) :: rest =>
    simp only [wfTFields, Bool.and_eq_true] at h
    have h1 := serialize_parse v h.1
    have h2 := serialize_parse_fields rest h.2
    cases hpv : parseValue v with
    | error e =>
      rw [hpv] at h1
      simp [Except.map] at h1
    | ok b =>
      rw [hpv] at h1
      simp only [Except.map, Except.ok.injEq] at h1
      cases hpr : parseFields rest with
      | error e =>
        rw [hpr] at h2
        simp [Except.map] at h2
      | ok bs =>
        rw [hpr] at h2
        simp only [Except.map, Except.ok.injEq] at h2
        simp [parseFields, hpv, hpr, Except.map, serializeFields, h1, h2]

end

/-! ### Codec claims -/

/-- C2 counterexample: `parse(serialize(x))` is not `x` for a `Binary` or a
`Timestamp` — their tagged forms come back as plain documents, because
`parseDocument` has no case for `$binary` or `$timestamp`. -/
theorem c2_counterexample :
    parseValue (serializeValue (.bBinary "AQID" 0))
      = .ok (.bDoc [("$binary", .bStr "AQID"), ("$type", .bStr "0")])
    ∧ parseValue (serializeValue (.bTimestamp 7 9))
      = .ok (.bDoc [("$timestamp", .bDoc [("t", .bNum 7), ("i", .bNum 9)])])
    ∧ (BsonValue.bDoc [("$binary", .bStr "AQID"), ("$type", .bStr "0")]
        = .bBinary "AQID" 0 → False)
    ∧ (BsonValue.bDoc [("$timestamp", .bDoc [("t", .bNum 7), ("i", .bNum 9)])]
        = .bTimestamp 7 9 → False) :=
  ⟨rfl, rfl, fun h => BsonValue.noConfusion h, fun h => BsonValue.noConfusion h⟩

/-- C2 (amended): the round trip holds in both directions for the values the
parser actually recognizes — null, booleans, numbers, strings, object-ids,
dates, decimals, 64-bit integers (canonical string forms), plus arrays and
tag-free documents of such values — but not for `Binary` or `Timestamp`. -/
theorem c2_roundtrip (x : BsonValue) (y : TValue) (hx : wfB x = true)
    (hy : wfT y = true) :
    parseValue (serializeValue x) = .ok x
    ∧ (parseValue y).map serializeValue = .ok y :=
  ⟨parse_serialize x hx, serialize_parse y hy⟩

/-- C2 witness: round trip evaluated at the spec's own ObjectId example and at
a concrete tagged date. -/
theorem c2_witness :
    wfB (.bObjectId "507f1f77bcf86cd799439011") = true
    ∧ wfT (.tObj [("$date", .tStr "2020-01-02T03:04:05.678Z")]) = true
    ∧ parseValue (serializeValue (.bObjectId "507f1f77bcf86cd799439011"))
        = .ok (.bObjectId "507f1f77bcf86cd799439011")
    ∧ (parseValue (.tObj [("$date", .tStr "2020-01-02T03:04:05.678Z")])).map
        serializeValue = .ok (.tObj [("$date", .tStr "2020-01-02T03:04:05.678Z")]) := by
  have h := c2_roundtrip (.bObjectId "507f1f77bcf86cd799439011")
    (.tObj [("$date", .tStr "2020-01-02T03:04:05.678Z")]) (by decide) (by decide)
  exact ⟨by decide, by decide, h.1, h.2⟩

/-- Keys of a transport object, if the value is an object. -/
def objKeys (t : TValue) : Option (List String) :=
  match t with
  | .tObj fs => some (fs.map Prod.fst)
  | _ => none

/-- C6 counterexample: the serialized form of a `Binary` is a TWO-key object
`\x7b $binary, $type \x7d`, not a single-key tagged object. -/
theorem c6_counterexample :
    objKeys (serializeValue (.bBinary "AQID" 0)) = some ["$binary", "$type"]
    ∧ (["$binary", "$type"].length = 1 → False) :=
  ⟨rfl, by decide⟩

/-- C6 (amended): serialization emits native JSON primitives unchanged and
single-key tagged objects for object-id, date, decimal, 64-bit integer and
timestamp — recognized on the way back purely by key name — while binary is
the exception, emitted as a two-key `\x7b $binary, $type \x7d` object. -/
theorem c6_tagged_forms :
    (∀ s, serializeValue (.bObjectId s) = .tObj [("$oid", .tStr s)])
    ∧ (∀ s, serializeValue (.bDate s) = .tObj [("$date", .tStr s)])
    ∧ (∀ s, serializeValue (.bDecimal s) = .tObj [("$numberDecimal", .tStr s)])
    ∧ (∀ s, serializeValue (.bLong s) = .tObj [("$numberLong", .tStr s)])
    ∧ (∀ t i, serializeValue (.bTimestamp t i)
        = .tObj [("$timestamp", .tObj [("t", .tNum t), ("i", .tNum i)])])
    ∧ (∀ b, serializeValue (.bBool b) = .tBool b)
    ∧ (∀ n, serializeValue (.bNum n) = .tNum n)
    ∧ (∀ s, serializeValue (.bStr s) = .tStr s)
    ∧ (∀ data st, serializeValue (.bBinary data st)
        = .tObj [("$binary", .tStr data),
                 ("$type", .tStr (String.mk (Nat.toDigits 16 st)))])
    ∧ (∀ s, validOidHex s = true →
        parseValue (.tObj [("$oid", .tStr s)]) = .ok (.bObjectId s))
    ∧ (∀ s, isCanonicalIso s = true →
        parseValue (.tObj [("$date", .tStr s)]) = .ok (.bDate s))
    ∧ (∀ s, isCanonicalDec s = true →
        parseValue (.tObj [("$numberDecimal", .tStr s)]) = .ok (.bDecimal s))
    ∧ (∀ s, isCanonicalLong s = true →
        parseValue (.tObj [("$numberLong", .tStr s)]) = .ok (.bLong s)) := by
  refine ⟨fun s => rfl, fun s => rfl, fun s => rfl, fun s => rfl, fun t i => rfl,
    fun b => rfl, fun n => rfl, fun s => rfl, fun data st => rfl, ?_, ?_, ?_, ?_⟩
  · intro s hs
    have hne : s ≠ "" := validOidHex_ne_empty hs
    simp [parseValue, List.lookup, truthyOpt, truthy, hne, hs]
  · intro s hs
    have hne : s ≠ "" := isCanonicalIso_ne_empty hs
    simp [parseValue, List.lookup, truthyOpt, truthy, hne, hs]
  · intro s hs
    have hne : s ≠ "" := isCanonicalDec_ne_empty hs
    simp [parseValue, List.lookup, truthyOpt, truthy, hne, hs]
  · intro s hs
    have hne : s ≠ "" := isCanonicalLong_ne_empty hs
    simp [parseValue, List.lookup, truthyOpt, truthy, hne, hs]

/-- C6 witness: the tag-dispatch conjuncts evaluated at a concrete ObjectId. -/
theorem c6_witness :
    validOidHex "507f1f77bcf86cd799439011" = true
    ∧ parseValue (.tObj [("$oid", .tStr "507f1f77bcf86cd799439011")])
        = .ok (.bObjectId "507f1f77bcf86cd799439011") :=
  ⟨by decide, c6_tagged_forms.2.2.2.2.2.2.2.2.2.1 "507f1f77bcf86cd799439011" (by decide)⟩

/-! ### Schema inference (src/utils/schema.js)

The claims concern `inferSchema`'s classification of one field from the
sequence of values it takes across the sampled documents (the nested-path
reassembly of lines 87-108 only creates other field paths and is outside the
claims).  A sampled value is modelled by exactly the distinctions
`analyzeDocument` draws; an array value by what the analyzer consumes of it —
its length and the `typeof` tags of its items in order. -/

inductive JValue where
  | jnull
  | jstr (s : String)
  | jnum (n : Int)
  | jbool (b : Bool)
  | jdate (iso : String)
  | jtagdate (s : String)
  | jtagoid (s : String)
  | jarr (len : Nat) (itemTags : List String)
  | jobj
  deriving Repr, DecidableEq

/-- JavaScript `Set.add`: keep insertion order, ignore duplicates. -/
def setAddG {α : Type} [DecidableEq α] (l : List α) (a : α) : List α :=
  if a ∈ l then l else l ++ [a]

/-- The source's `isDateString`: prefix match of
`^\d\x7b4\x7d-\d\x7b2\x7d-\d\x7b2\x7dT\d\x7b2\x7d:\d\x7b2\x7d:\d\x7b2\x7d`, or a full
`^\d\x7b4\x7d-\d\x7b2\x7d-\d\x7b2\x7d$` date. -/
def isDateString (s : String) : Bool :=
  (match s.data with
   | y1 :: y2 :: y3 :: y4 :: '-' :: m1 :: m2 :: '-' :: d1 :: d2 :: 'T' :: h1 :: h2
       :: ':' :: mi1 :: mi2 :: ':' :: s1 :: s2 :: _ =>
     [y1, y2, y3, y4, m1, m2, d1, d2, h1, h2, mi1, mi2, s1, s2].all Char.isDigit
   | _ => false)
  || (match s.data with
      | [y1, y2, y3, y4, '-', m1, m2, '-', d1, d2] =>
        [y1, y2, y3, y4, m1, m2, d1, d2].all Char.isDigit
      | _ => false)

/-- Per-field statistics accumulated by `analyzeDocument`.  `objectCount`
stands for `objectValues` — the source stores the values but consumes only
their number. -/
structure FieldStats where
  presentCount : Nat
  nullCount : Nat
  stringValues : List String
  numberValues : List Int
  booleanValues : List Bool
  dateValues : List String
  objectCount : Nat
  arrayValues : List Nat
  uniqueStringValues : List String
  arrayItemTypes : List String
  deriving Repr, DecidableEq

/-- The fresh statistics record. -/
def emptyFieldStats : FieldStats := ⟨0, 0, [], [], [], [], 0, [], [], []⟩

/-- One `analyzeDocument` step for one field value, following the branch order
of the source: string (with date-string detection), number, boolean, `Date`
instance, truthy `$date` wrapper, truthy `$oid` wrapper (pushed to
`stringValues` but NOT to the unique set), array, object.  A falsy `$date` or
`$oid` wrapper falls through to the object branch, as in JavaScript. -/
def updateStats (stats : FieldStats) (v : JValue) : FieldStats :=
  match v with
  | .jnull => { stats with nullCount := stats.nullCount + 1 }
  | .jstr str =>
    let s1 := { stats with
      presentCount := stats.presentCount + 1
      stringValues := stats.stringValues ++ [str]
      uniqueStringValues := setAddG stats.uniqueStringValues str }
    if isDateString str then { s1 with dateValues := s1.dateValues ++ [str] } else s1
  | .jnum n =>
    { stats with presentCount := stats.presentCount + 1
                 numberValues := stats.numberValues ++ [n] }
  | .jbool b =>
    { stats with presentCount := stats.presentCount + 1
                 booleanValues := stats.booleanValues ++ [b] }
  | .jdate iso =>
    { stats with presentCount := stats.presentCount + 1
                 dateValues := stats.dateValues ++ [iso] }
  | .jtagdate s =>
    if s != "" then
      { stats with presentCount := stats.presentCount + 1
                   dateValues := stats.dateValues ++ [s] }
    else
      { stats with presentCount := stats.presentCount + 1
                   objectCount := stats.objectCount + 1 }
  | .jtagoid s =>
    if s != "" then
      { stats with presentCount := stats.presentCount + 1
                   stringValues := stats.stringValues ++ [s] }
    else
      { stats with presentCount := stats.presentCount + 1
                   objectCount := stats.objectCount + 1 }
  | .jarr len itemTags =>
    { stats with presentCount := stats.presentCount + 1
                 arrayValues := stats.arrayValues ++ [len]
                 arrayItemTypes := itemTags.foldl setAddG stats.arrayItemTypes }
  | .jobj =>
    { stats with presentCount := stats.presentCount + 1
                 objectCount := stats.objectCount + 1 }

/-- `determineType`: walk the count buckets in the fixed key order and keep the
first strictly-largest; the running start is `('string', 0)`. -/
def determineType (stats : FieldStats) : String :=
  let counts : List (String × Nat) :=
    [("string", stats.stringValues.length), ("number", stats.numberValues.length),
     ("boolean", stats.booleanValues.length), ("date", stats.dateValues.length),
     ("array", stats.arrayValues.length), ("object", stats.objectCount)]
  (counts.foldl (fun acc tc => if tc.2 > acc.2 then tc else acc) ("string", 0)).1

/-- The field schema the inferencer reports (the facets the source computes). -/
structure FieldSchema where
  type : String
  nullable : Bool
  presence : Rat
  examples : List JValue
  enum : Option (List String)
  min : Option Int
  max : Option Int
  format : Option String
  default : Option Bool
  items : Option String
  deriving Repr, DecidableEq

/-- `getUniqueExamples(allValues, 5)`. -/
def getUniqueExamples (values : List JValue) (maxN : Nat) : List JValue :=
  (values.foldl setAddG []).take maxN

/-- The `fieldSchema` object before the type-specific refinements. -/
def fieldBase (totalDocs : Nat) (stats : FieldStats) : FieldSchema :=
  { type := determineType stats
    nullable := stats.nullCount > 0
    presence := (stats.presentCount : Rat) / (totalDocs : Rat)
    examples := getUniqueExamples
      (stats.stringValues.map JValue.jstr
        ++ stats.numberValues.map JValue.jnum
        ++ stats.booleanValues.map (fun b => JValue.jstr (if b then "true" else "false"))
        ++ stats.dateValues.map JValue.jstr) 5
    enum := none
    min := none
    max := none
    format := none
    default := none
    items := none }

/-- The source's `enumUsage / stats.stringValues.length > 0.8`, as the exact
integer comparison `5 * enumUsage > 4 * length`: equal to the float comparison
for every positive length (both counts are far below 2^53), and `false` at
length 0 just as `NaN > 0.8` is. -/
def ratioGt80 (num den : Nat) : Bool := 5 * num > 4 * den

/-- Enum detection: a string-typed field with 1..10 unique string values is
reclassified as `enum` when more than 80% of its `stringValues` occur in the
unique set (a set that, by construction, contains every plain string
occurrence). -/
def applyEnumRule (stats : FieldStats) (fs : FieldSchema) : FieldSchema :=
  if fs.type == "string" && stats.uniqueStringValues.length > 0
      && stats.uniqueStringValues.length ≤ 10 then
    let uniqueValues := stats.uniqueStringValues
    let enumUsage :=
      (stats.stringValues.filter (fun v => uniqueValues.contains v)).length
    if ratioGt80 enumUsage stats.stringValues.length then
      { fs with enum := some uniqueValues, type := "enum" }
    else fs
  else fs

/-- Date fields get a form format. -/
def applyDateRule (fs : FieldSchema) : FieldSchema :=
  if fs.type == "date" then { fs with format := some "datetime-local" } else fs

/-- Boolean fields get a default. -/
def applyBooleanRule (fs : FieldSchema) : FieldSchema :=
  if fs.type == "boolean" then { fs with default := some false } else fs

/-- Number fields get `Math.min`/`Math.max` ranges. -/
def applyNumberRule (stats : FieldStats) (fs : FieldSchema) : FieldSchema :=
  if fs.type == "number" then
    match stats.numberValues with
    | [] => fs
    | n :: rest =>
      { fs with min := some (rest.foldl Min.min n), max := some (rest.foldl Max.max n) }
  else fs

/-- Array fields with a single item type get an `items` facet. -/
def applyArrayRule (stats : FieldStats) (fs : FieldSchema) : FieldSchema :=
  if fs.type == "array" && stats.arrayItemTypes.length > 0 then
    match stats.arrayItemTypes with
    | [t] => { fs with items := some t }
    | _ => fs
  else fs

/-- The per-field schema construction of `inferSchema`, refinements applied in
source order. -/
def fieldSchemaFor (totalDocs : Nat) (stats : FieldStats) : FieldSchema :=
  applyArrayRule stats (applyNumberRule stats
    (applyBooleanRule (applyDateRule (applyEnumRule stats (fieldBase totalDocs stats)))))

/-- `inferSchema` on one field that is present in every sampled document, one
value per document. -/
def schemaForValues (vals : List JValue) : FieldSchema :=
  fieldSchemaFor vals.length (vals.foldl updateStats emptyFieldStats)

/-- The insertion-ordered set of distinct values of a string list (the
contents of `uniqueStringValues` for plain string samples). -/
def uniqStr (vals : List String) : List String := vals.foldl setAddG []

example : uniqStr ["a", "b", "a", "c"] = ["a", "b", "c"] := by decide

example : (schemaForValues (["x", "y"].map JValue.jstr)).type = "enum" := by decide

/-! ### Schema lemmas -/

lemma foldl_strings_go (vals : List String) : ∀ acc : FieldStats,
    (vals.map JValue.jstr).foldl updateStats acc =
      { acc with
        presentCount := acc.presentCount + vals.length
        stringValues := acc.stringValues ++ vals
        dateValues := acc.dateValues ++ vals.filter isDateString
        uniqueStringValues := vals.foldl setAddG acc.uniqueStringValues } := by
  induction vals with
  | nil =>
    intro acc
    simp
  | cons v rest ih =>
    intro acc
    simp only [List.map_cons, List.foldl_cons, List.foldl]
    by_cases hd : isDateString v = true
    · rw [show updateStats acc (.jstr v) =
          { acc with
            presentCount := acc.presentCount + 1
            stringValues := acc.stringValues ++ [v]
            dateValues := acc.dateValues ++ [v]
            uniqueStringValues := setAddG acc.uniqueStringValues v } from by
        simp [updateStats, hd]]
      rw [ih]
      simp [List.filter_cons, hd, List.append_assoc]
      omega
    · rw [show updateStats acc (.jstr v) =
          { acc with
            presentCount := acc.presentCount + 1
            stringValues := acc.stringValues ++ [v]
            uniqueStringValues := setAddG acc.uniqueStringValues v } from by
        simp [updateStats, hd]]
      rw [ih]
      simp [List.filter_cons, hd, List.append_assoc]
      omega

lemma mem_foldl_setAddG {v : String} : ∀ (vals acc : List String),
    v ∈ vals ∨ v ∈ acc → v ∈ vals.foldl setAddG acc := by
  intro vals
  induction vals with
  | nil =>
    intro acc h
    rcases h with h | h
    · exact absurd h (List.not_mem_nil v)
    · exact h
  | cons w rest ih =>
    intro acc h
    simp only [List.foldl_cons]
    rcases h with h | h
    · rcases List.mem_cons.mp h with he | hr
      · refine ih _ (Or.inr ?_)
        subst he
        unfold setAddG
        by_cases hin : v ∈ acc
        · rw [if_pos hin]; exact hin
        · rw [if_neg hin]; exact List.mem_append.mpr (Or.inr (by simp))
      · exact ih _ (Or.inl hr)
    · refine ih _ (Or.inr ?_)
      unfold setAddG
      by_cases hin : w ∈ acc
      · rw [if_pos hin]; exact h
      · rw [if_neg hin]; exact List.mem_append.mpr (Or.inl h)

lemma length_le_foldl_setAddG : ∀ (vals acc : List String),
    acc.length ≤ (vals.foldl setAddG acc).length := by
  intro vals
  induction vals with
  | nil => intro acc; exact le_refl _
  | cons w rest ih =>
    intro acc
    simp only [List.foldl_cons]
    refine le_trans ?_ (ih (setAddG acc w))
    unfold setAddG
    by_cases hin : w ∈ acc
    · rw [if_pos hin]
    · rw [if_neg hin, List.length_append]
      omega

lemma uniqStr_ne_nil {vals : List String} (h : vals ≠ []) : uniqStr vals ≠ [] := by
  match vals, h with
  | v :: rest, _ =>
    unfold uniqStr
    simp only [List.foldl_cons]
    have h1 := length_le_foldl_setAddG rest (setAddG [] v)
    have h2 : (setAddG [] v).length = 1 := by simp [setAddG]
    intro hcon
    rw [hcon] at h1
    simp [h2] at h1

lemma determineType_string_field (stats : FieldStats)
    (hnum : stats.numberValues = []) (hb : stats.booleanValues = [])
    (hdate : stats.dateValues.length ≤ stats.stringValues.length)
    (ha : stats.arrayValues = []) (ho : stats.objectCount = 0) :
    determineType stats = "string" := by
  unfold determineType
  simp only [hnum, hb, ha, ho, List.length_nil, List.foldl]
  split_ifs <;> first | rfl | omega

/-- The statistics accumulated over a run of plain string values. -/
lemma stats_of_strings (vals : List String) :
    (vals.map JValue.jstr).foldl updateStats emptyFieldStats =
      { presentCount := vals.length
        nullCount := 0
        stringValues := vals
        numberValues := []
        booleanValues := []
        dateValues := vals.filter isDateString
        objectCount := 0
        arrayValues := []
        uniqueStringValues := uniqStr vals
        arrayItemTypes := [] } := by
  rw [foldl_strings_go vals emptyFieldStats]
  simp [emptyFieldStats, uniqStr]

/-! ### Schema claims -/

/-- Ten sample values, nine from the 3-element set a/b/c plus one outlier. -/
def enumSample1 : List String := ["a", "b", "c", "a", "b", "c", "a", "b", "c", "d"]

/-- Ten sample values, five from the 3-element set a/b/c plus five distinct
outliers. -/
def enumSample2 : List String :=
  ["a", "b", "c", "a", "b", "x1", "x2", "x3", "x4", "x5"]

/-- C4 counterexample: with 9 of 10 values from a 3-element set the field IS
classified enum, but with the 4 distinct values present — not "exactly those 3
allowed values"; and with 5 of 10 values from a 3-element set (50% < 80%) the
field is still classified `enum`, not plain `string`, because every plain
string occurrence is in the unique set, making the 80% check vacuous. -/
theorem c4_counterexample :
    ((schemaForValues (enumSample1.map JValue.jstr)).type = "enum"
      ∧ (schemaForValues (enumSample1.map JValue.jstr)).enum = some ["a", "b", "c", "d"]
      ∧ (some ["a", "b", "c", "d"] = some ["a", "b", "c"] → False))
    ∧ ((schemaForValues (enumSample2.map JValue.jstr)).type = "enum"
      ∧ (("enum" : String) = "string" → False)) := by
  refine ⟨⟨?_, ?_, by decide⟩, ⟨?_, by decide⟩⟩ <;> decide

/-- When a string-typed field's gate conditions hold and every string
occurrence is in the unique set, the enum rule fires. -/
lemma applyEnumRule_fires (fs : FieldSchema) (stats : FieldStats)
    (htype : fs.type = "string")
    (hupos : 0 < stats.uniqueStringValues.length)
    (h10 : stats.uniqueStringValues.length ≤ 10)
    (husage : stats.stringValues.filter
        (fun v => stats.uniqueStringValues.contains v) = stats.stringValues)
    (hlen : 0 < stats.stringValues.length) :
    applyEnumRule stats fs =
      { fs with enum := some stats.uniqueStringValues, type := "enum" } := by
  unfold applyEnumRule
  rw [htype]
  have hgate : (("string" == "string" && stats.uniqueStringValues.length > 0
      && stats.uniqueStringValues.length ≤ 10) : Bool) = true := by
    simp only [Bool.and_eq_true, beq_self_eq_true, decide_eq_true_eq]
    exact ⟨⟨trivial, hupos⟩, h10⟩
  rw [if_pos hgate]
  have hr : ratioGt80 stats.stringValues.length stats.stringValues.length = true := by
    unfold ratioGt80
    simp only [decide_eq_true_eq]
    omega
  simp only [husage, hr, if_true]

lemma applyDateRule_skip {fs : FieldSchema} (h : fs.type = "enum") :
    applyDateRule fs = fs := by
  unfold applyDateRule
  rw [h]
  rfl

lemma applyBooleanRule_skip {fs : FieldSchema} (h : fs.type = "enum") :
    applyBooleanRule fs = fs := by
  unfold applyBooleanRule
  rw [h]
  rfl

lemma applyNumberRule_skip {fs : FieldSchema} (stats : FieldStats)
    (h : fs.type = "enum") : applyNumberRule stats fs = fs := by
  unfold applyNumberRule
  rw [h]
  rfl

lemma applyArrayRule_skip {fs : FieldSchema} (stats : FieldStats)
    (h : fs.type = "enum") : applyArrayRule stats fs = fs := by
  unfold applyArrayRule
  rw [h]
  rfl

/-- C4 (amended): for a field sampled as plain (non-empty) string values, the
resolved type is `string` and the enum reclassification fires exactly when the
number of distinct values is at most 10 — the ≥80% condition is vacuous
because the unique set contains every plain string occurrence — and the
allowed values are then all distinct sampled values in first-occurrence
order. -/
theorem c4_enum_rule (vals : List String) (hne : vals ≠ [])
    (h10 : (uniqStr vals).length ≤ 10) :
    (schemaForValues (vals.map JValue.jstr)).type = "enum"
    ∧ (schemaForValues (vals.map JValue.jstr)).enum = some (uniqStr vals) := by
  unfold schemaForValues
  rw [show (vals.map JValue.jstr).length = vals.length from by rw [List.length_map],
    stats_of_strings vals]
  set stats : FieldStats :=
    { presentCount := vals.length
      nullCount := 0
      stringValues := vals
      numberValues := []
      booleanValues := []
      dateValues := vals.filter isDateString
      objectCount := 0
      arrayValues := []
      uniqueStringValues := uniqStr vals
      arrayItemTypes := [] } with hstats
  have htype : determineType stats = "string" :=
    determineType_string_field stats rfl rfl (List.length_filter_le _ _) rfl rfl
  have hupos : 0 < (uniqStr vals).length :=
    List.length_pos.mpr (uniqStr_ne_nil hne)
  have husage : vals.filter (fun v => (uniqStr vals).contains v) = vals := by
    rw [List.filter_eq_self]
    intro a ha
    exact List.elem_iff.mpr (mem_foldl_setAddG vals [] (Or.inl ha))
  have henum := applyEnumRule_fires (fieldBase vals.length stats) stats
    (by rw [show (fieldBase vals.length stats).type = determineType stats from rfl,
      htype])
    hupos h10 husage (List.length_pos.mpr hne)
  unfold fieldSchemaFor
  rw [henum, applyDateRule_skip rfl, applyBooleanRule_skip rfl,
    applyNumberRule_skip stats rfl, applyArrayRule_skip stats rfl]
  constructor <;> rfl

/-- C4 witness: the amended rule evaluated at the 9-of-10 sample. -/
theorem c4_witness :
    (schemaForValues (enumSample1.map JValue.jstr)).type = "enum"
    ∧ (schemaForValues (enumSample1.map JValue.jstr)).enum
        = some (uniqStr enumSample1) :=
  c4_enum_rule enumSample1 (by decide) (by decide)

/-! ### Connection manager (src/services/mongodb.js, MongoDBService)

The service state: the single client handle (identified by the number drawn
from a fresh-handle counter, standing for the `MongoClient` object's identity)
and the connection string it was opened with.  `openCount` counts
`client.connect()` calls on new `MongoClient`s and `closeCount` counts
`client.close()` calls, so "no second underlying connection" and "closed
before reopening" are observable. -/

structure ConnState where
  client : Option Nat
  connectionString : Option String
  nextClientId : Nat
  openCount : Nat
  closeCount : Nat
  deriving Repr, DecidableEq

/-- The freshly constructed service: `this.client = null`,
`this.connectionString = null`. -/
def initialConn : ConnState :=
  { client := none, connectionString := none, nextClientId := 0,
    openCount := 0, closeCount := 0 }

/-- `disconnect()`: close and clear the handle if present; a no-op otherwise. -/
def disconnect (st : ConnState) : ConnState :=
  match st.client with
  | some _ =>
    { st with client := none, connectionString := none,
              closeCount := st.closeCount + 1 }
  | none => st

/-- `connect(connectionString)`: reuse the handle when one exists and was
opened with the same string; otherwise disconnect any existing handle, then
open and store a fresh one.  Returns the new state and the returned handle. -/
def connect (st : ConnState) (cs : String) : ConnState × Nat :=
  match st.client with
  | some h =>
    if st.connectionString = some cs then (st, h)
    else
      let st1 := disconnect st
      ({ st1 with client := some st1.nextClientId, connectionString := some cs,
                  nextClientId := st1.nextClientId + 1,
                  openCount := st1.openCount + 1 }, st1.nextClientId)
  | none =>
    ({ st with client := some st.nextClientId, connectionString := some cs,
               nextClientId := st.nextClientId + 1,
               openCount := st.openCount + 1 }, st.nextClientId)

lemma connect_state (st : ConnState) (cs : String) :
    ((connect st cs).1).client = some (connect st cs).2
    ∧ ((connect st cs).1).connectionString = some cs := by
  unfold connect
  match hc : st.client with
  | some h =>
    by_cases hs : st.connectionString = some cs
    · simp [hs, hc]
    · simp [hs, hc]
  | none => simp [hc]

/-- C7: connecting twice with the same string returns the same handle and the
same state — in particular no second underlying connection is opened — while
connecting with a different string closes the existing handle (one more close)
before opening and storing a new one (one more open), and, provided the state
is well-formed (live handle ids are below the fresh counter, true of every
reachable state), the stored handle changes. -/
theorem c7_connect_idempotent (st : ConnState) (cs cs2 : String) (hne : cs2 ≠ cs)
    (hwf : ∀ h, st.client = some h → h < st.nextClientId) :
    (connect (connect st cs).1 cs = ((connect st cs).1, (connect st cs).2))
    ∧ ((connect (connect st cs).1 cs2).1).closeCount
        = ((connect st cs).1).closeCount + 1
    ∧ ((connect (connect st cs).1 cs2).1).openCount
        = ((connect st cs).1).openCount + 1
    ∧ ((connect (connect st cs).1 cs2).1).client ≠ ((connect st cs).1).client := by
  obtain ⟨hcl, hstr⟩ := connect_state st cs
  have hwf1 : ∀ h, ((connect st cs).1).client = some h →
      h < ((connect st cs).1).nextClientId := by
    intro h hh
    unfold connect at hh ⊢
    match hc : st.client with
    | some h0 =>
      by_cases hs : st.connectionString = some cs
      · simp only [hc, hs, if_pos rfl] at hh ⊢
        exact hwf h hh
      · simp only [hc, if_neg hs] at hh ⊢
        simp only [Option.some.injEq] at hh
        omega
    | none =>
      simp only [hc] at hh ⊢
      simp only [Option.some.injEq] at hh
      omega
  set st1 := (connect st cs).1 with hst1
  set h1 := (connect st cs).2 with hh1
  have hstr2 : st1.connectionString ≠ some cs2 := by
    rw [hstr]
    intro hcon
    injection hcon with h2
    exact hne h2.symm
  have hlt := hwf1 _ hcl
  refine ⟨?_, ?_, ?_, ?_⟩
  · show connect st1 cs = (st1, h1)
    simp [connect, hcl, hstr]
  · show ((connect st1 cs2).1).closeCount = st1.closeCount + 1
    simp [connect, hcl, hstr2, disconnect]
  · show ((connect st1 cs2).1).openCount = st1.openCount + 1
    simp [connect, hcl, hstr2, disconnect]
  · show ((connect st1 cs2).1).client ≠ st1.client
    simp only [connect, hcl, hstr2, disconnect]
    simp [hcl]
    omega

/-- C7 witness: the statement evaluated from the freshly constructed service. -/
theorem c7_witness :
    (connect (connect initialConn "mongodb://a").1 "mongodb://a"
      = ((connect initialConn "mongodb://a").1, (connect initialConn "mongodb://a").2))
    ∧ ((connect (connect initialConn "mongodb://a").1 "mongodb://b").1).closeCount
        = ((connect initialConn "mongodb://a").1).closeCount + 1
    ∧ ((connect (connect initialConn "mongodb://a").1 "mongodb://b").1).openCount
        = ((connect initialConn "mongodb://a").1).openCount + 1
    ∧ ((connect (connect initialConn "mongodb://a").1 "mongodb://b").1).client
        ≠ ((connect initialConn "mongodb://a").1).client :=
  c7_connect_idempotent initialConn "mongodb://a" "mongodb://b" (by decide)
    (by intro h hh; simp [initialConn] at hh)

/-! ### Update route (src/routes/api.js, PUT /:db/:collection/:id)

A stored document is an ordered field list over `BsonValue`.  The store's
`replaceOne(\x7b _id \x7d, updates)` is modelled with MongoDB's documented
semantics: the first document whose `_id` equals the query id is replaced by
the replacement fields with the original `_id` kept (the replacement carries no
`_id` because the route deletes it). -/

mutual

/-- Structural BSON value equality, the store's equality on `_id` values. -/
def bsonEq : BsonValue → BsonValue → Bool
  | .bNull, .bNull => true
  | .bBool a, .bBool b => a == b
  | .bNum a, .bNum b => a == b
  | .bStr a, .bStr b => a == b
  | .bObjectId a, .bObjectId b => a == b
  | .bDate a, .bDate b => a == b
  | .bBinary a n, .bBinary b m => a == b && n == m
  | .bDecimal a, .bDecimal b => a == b
  | .bLong a, .bLong b => a == b
  | .bTimestamp t i, .bTimestamp t2 i2 => t == t2 && i == i2
  | .bArr va, .bArr vb => bsonEqList va vb
  | .bDoc fa, .bDoc fb => bsonEqFields fa fb
  | _, _ => false

/-- Member-wise equality of arrays. -/
def bsonEqList : List BsonValue → List BsonValue → Bool
  | [], [] => true
  | v :: vs, w :: ws => bsonEq v w && bsonEqList vs ws
  | _, _ => false

/-- Field-wise equality of documents. -/
def bsonEqFields : List (String × BsonValue) → List (String × BsonValue) → Bool
  | [], [] => true
  | (k, v) :: fs, (k2, w) :: gs => k == k2 && bsonEq v w && bsonEqFields fs gs
  | _, _ => false

end

/-- A stored document: ordered field list with an `_id` field. -/
abbrev StoredDoc := List (String × BsonValue)

/-- Hex digit including uppercase (what `new ObjectId(id)` accepts). -/
def isHexDigitCh (ch : Char) : Bool :=
  ch.isDigit || ('a' ≤ ch && ch ≤ 'f') || ('A' ≤ ch && ch ≤ 'F')

/-- Lowercase hex character of a value below 16. -/
def hexDigitChar (n : Nat) : Char :=
  if n < 10 then Char.ofNat (48 + n) else Char.ofNat (87 + n)

/-- Two-character lowercase hex form of a byte. -/
def byteToHex (b : Nat) : List Char :=
  [hexDigitChar (b / 16), hexDigitChar (b % 16)]

/-- The route's `try \x7b new ObjectId(id) \x7d catch \x7b id \x7d`: a 24-char hex
string (any case) becomes an ObjectId with the lowercase hex value, a 12-char
string is taken as 12 raw bytes (byte values; multi-byte characters are out of
scope of the claims), anything else falls back to the raw string. -/
def parseIdParam (s : String) : BsonValue :=
  if s.length == 24 && s.data.all isHexDigitCh then
    .bObjectId (String.mk (s.data.map charLower))
  else if s.length == 12 then
    .bObjectId (String.mk ((s.data.map (fun ch => byteToHex (ch.toNat % 256))).flatten))
  else .bStr s

/-- Does a stored document match the query `\x7b _id: qid \x7d`? -/
def idMatches (d : StoredDoc) (qid : BsonValue) : Bool :=
  match d.lookup "_id" with
  | some v => bsonEq v qid
  | none => false

/-- `collection.replaceOne(\x7b _id: qid \x7d, rep)`: replace the first matching
document, keeping its `_id`; returns the new store, `matchedCount` and
`modifiedCount` (0 when the replacement coincides with the old document). -/
def replaceOne (store : List StoredDoc) (qid : BsonValue) (rep : StoredDoc) :
    List StoredDoc × Nat × Nat :=
  match store with
  | [] => ([], 0, 0)
  | d :: rest =>
    if idMatches d qid then
      ((("_id", qid) :: rep) :: rest, 1,
       if bsonEqFields (("_id", qid) :: rep) d then 0 else 1)
    else
      let r := replaceOne rest qid rep
      (d :: r.1, r.2.1, r.2.2)

/-- Outcome of the update route: 200 success, 404, or 500. -/
inductive UpdateOutcome where
  | success (modifiedCount : Nat)
  | notFound (error : String)
  | storeError (error : String)
  deriving Repr, DecidableEq

/-- The `PUT /:db/:collection/:id` handler: parse the body, `delete
updates._id`, `replaceOne`, 404 with "Document not found" when nothing
matched.  A non-document body is rejected by the driver (500). -/
def handleUpdate (store : List StoredDoc) (idParam : String) (body : TValue) :
    UpdateOutcome × List StoredDoc :=
  match parseValue body with
  | .error e => (.storeError e, store)
  | .ok (.bDoc fs) =>
    let updates := fs.filter (fun kv => kv.1 != "_id")
    let r := replaceOne store (parseIdParam idParam) updates
    if r.2.1 == 0 then (.notFound "Document not found", store)
    else (.success r.2.2, r.1)
  | .ok _ => (.storeError "Replacement document required", store)

lemma replaceOne_no_match (store : List StoredDoc) (qid : BsonValue) (rep : StoredDoc)
    (hmiss : ∀ d ∈ store, idMatches d qid = false) :
    replaceOne store qid rep = (store, 0, 0) := by
  induction store with
  | nil => rfl
  | cons d rest ih =>
    simp only [replaceOne]
    rw [hmiss d (List.mem_cons_self d rest)]
    simp only [Bool.false_eq_true, if_false]
    rw [ih (fun x hx => hmiss x (List.mem_cons_of_mem d hx))]

lemma replaceOne_first_match (pre post : List StoredDoc) (d : StoredDoc)
    (qid : BsonValue) (rep : StoredDoc)
    (hpre : ∀ x ∈ pre, idMatches x qid = false) (hd : idMatches d qid = true) :
    replaceOne (pre ++ d :: post) qid rep
      = (pre ++ (("_id", qid) :: rep) :: post, 1,
         if bsonEqFields (("_id", qid) :: rep) d then 0 else 1) := by
  induction pre with
  | nil =>
    simp only [List.nil_append, replaceOne, hd, if_true]
  | cons x rest ih =>
    simp only [List.cons_append, replaceOne]
    rw [hpre x (List.mem_cons_self x rest)]
    simp only [Bool.false_eq_true, if_false, List.append_eq]
    rw [ih (fun y hy => hpre y (List.mem_cons_of_mem x hy))]

/-- C8: updating by an id that matches no stored document returns 404 with
error "Document not found" and leaves the store unchanged. -/
theorem c8_update_missing (store : List StoredDoc) (idParam : String) (body : TValue)
    (fs : List (String × BsonValue))
    (hbody : parseValue body = .ok (.bDoc fs))
    (hmiss : ∀ d ∈ store, idMatches d (parseIdParam idParam) = false) :
    handleUpdate store idParam body
      = (.notFound "Document not found", store) := by
  unfold handleUpdate
  rw [hbody]
  dsimp only
  rw [replaceOne_no_match store (parseIdParam idParam) _ hmiss]
  rfl

/-- One concrete stored document for the update scenarios. -/
def exStoredDoc : StoredDoc := [("_id", .bStr "a"), ("name", .bStr "x")]

/-- C8 witness: the 404 path evaluated on a one-document store and a fresh id. -/
theorem c8_witness :
    handleUpdate [exStoredDoc] "b" (.tObj [("name", .tStr "y")])
      = (.notFound "Document not found", [exStoredDoc]) :=
  c8_update_missing [exStoredDoc] "b" (.tObj [("name", .tStr "y")])
    [("name", .bStr "y")] rfl (by decide)

/-- C10: the update never changes a document's `_id`: the body's `_id` field is
removed before replacement, the matched document keeps its identifier while its
other fields are replaced, all other documents are untouched, and the outcome
is not a 404. -/
theorem c10_id_immutable (pre post : List StoredDoc) (d : StoredDoc)
    (idParam : String) (body : TValue) (fs : List (String × BsonValue))
    (hbody : parseValue body = .ok (.bDoc fs))
    (hpre : ∀ x ∈ pre, idMatches x (parseIdParam idParam) = false)
    (hd : idMatches d (parseIdParam idParam) = true) :
    (handleUpdate (pre ++ d :: post) idParam body).2
      = pre ++ (("_id", parseIdParam idParam)
          :: fs.filter (fun kv => kv.1 != "_id")) :: post
    ∧ ((("_id", parseIdParam idParam)
          :: fs.filter (fun kv => kv.1 != "_id")) : StoredDoc).lookup "_id"
        = some (parseIdParam idParam)
    ∧ (∀ e, (handleUpdate (pre ++ d :: post) idParam body).1
        ≠ UpdateOutcome.notFound e) := by
  have hrep := replaceOne_first_match pre post d (parseIdParam idParam)
    (fs.filter (fun kv => kv.1 != "_id")) hpre hd
  refine ⟨?_, rfl, ?_⟩
  · unfold handleUpdate
    rw [hbody]
    dsimp only
    rw [hrep]
    rfl
  · intro e
    unfold handleUpdate
    rw [hbody]
    dsimp only
    rw [hrep]
    simp

/-- C10 witness: a body that tries to overwrite `_id` leaves the stored `_id`
intact while replacing the other fields. -/
theorem c10_witness :
    (handleUpdate [exStoredDoc] "a"
        (.tObj [("_id", .tStr "zzz"), ("name", .tStr "y")])).2
      = [] ++ (("_id", parseIdParam "a")
          :: ([("_id", BsonValue.bStr "zzz"), ("name", BsonValue.bStr "y")].filter
              (fun kv => kv.1 != "_id"))) :: []
    ∧ ((("_id", parseIdParam "a")
          :: ([("_id", BsonValue.bStr "zzz"), ("name", BsonValue.bStr "y")].filter
              (fun kv => kv.1 != "_id"))) : StoredDoc).lookup "_id"
        = some (parseIdParam "a")
    ∧ (∀ e, (handleUpdate [exStoredDoc] "a"
        (.tObj [("_id", .tStr "zzz"), ("name", .tStr "y")])).1
        ≠ UpdateOutcome.notFound e) :=
  c10_id_immutable [] [] exStoredDoc "a" (.tObj [("_id", .tStr "zzz"), ("name", .tStr "y")])
    [("_id", .bStr "zzz"), ("name", .bStr "y")] rfl
    (by intro x hx; exact absurd hx (List.not_mem_nil x)) (by decide)

end MongoDash
